import Mathlib

set_option maxRecDepth 1000000

/-!
# Verification of the `sha256` crate (baoyachi/sha256-rs)

A shallow embedding of the crate's source in Lean 4.

Bytes are modelled as `Nat` (meaningful values are `< 256`), 32-bit words as
`Nat` reduced modulo `2 ^ 32` wherever the Rust code's `u32` arithmetic wraps.

The crate delegates the SHA-256 mathematics to two external libraries
(`sha2::Sha256` and `openssl::sha::Sha256`).  Those collaborators are embedded
here as executable models:

* `sha256Bytes` is the FIPS 180-4 SHA-256 function on byte lists; the
  `sha2::Sha256` engine is modelled by its functional contract (the state is
  the sequence of bytes fed so far, `finalize` hashes it);
* `OpenSslSha256` models openssl's incremental `SHA256_CTX` (running hash of
  the complete 64-byte blocks consumed so far, a pending buffer of fewer than
  64 bytes, and the total length), which processes blocks eagerly on `update`.

The crate code itself (`__digest__`, the `CalculatorSelector` impls, `calc`,
the two revisions of `async_calc`, and the path-based entry points) is
translated definition by definition below.
-/

/-- 32-bit truncation: the wrap-around of Rust `u32` arithmetic. -/
def w32 (n : Nat) : Nat := n % 2 ^ 32

/-- Right rotation of a 32-bit word by `n` bits. -/
def rotr (n x : Nat) : Nat := w32 (x / 2 ^ n + x % 2 ^ n * 2 ^ (32 - n))

/-- SHA-256 `Ch(e,f,g)`: for each bit, `f` where `e` is set, else `g`. -/
def ch (e f g : Nat) : Nat := (e &&& f) ^^^ ((2 ^ 32 - 1 - e % 2 ^ 32) &&& g)

/-- SHA-256 `Maj(a,b,c)`: bitwise majority. -/
def maj (a b c : Nat) : Nat := (a &&& b) ^^^ (a &&& c) ^^^ (b &&& c)

/-- SHA-256 big sigma-0. -/
def bigSigma0 (x : Nat) : Nat := rotr 2 x ^^^ rotr 13 x ^^^ rotr 22 x

/-- SHA-256 big sigma-1. -/
def bigSigma1 (x : Nat) : Nat := rotr 6 x ^^^ rotr 11 x ^^^ rotr 25 x

/-- SHA-256 small sigma-0. -/
def smallSigma0 (x : Nat) : Nat := rotr 7 x ^^^ rotr 18 x ^^^ (x % 2 ^ 32) / 2 ^ 3

/-- SHA-256 small sigma-1. -/
def smallSigma1 (x : Nat) : Nat := rotr 17 x ^^^ rotr 19 x ^^^ (x % 2 ^ 32) / 2 ^ 10

/-- The 64 SHA-256 round constants (in decimal). -/
def roundK : List Nat :=
  [1116352408, 1899447441, 3049323471, 3921009573, 961987163,
   1508970993, 2453635748, 2870763221, 3624381080, 310598401,
   607225278, 1426881987, 1925078388, 2162078206, 2614888103,
   3248222580, 3835390401, 4022224774, 264347078, 604807628,
   770255983, 1249150122, 1555081692, 1996064986, 2554220882,
   2821834349, 2952996808, 3210313671, 3336571891, 3584528711,
   113926993, 338241895, 666307205, 773529912, 1294757372,
   1396182291, 1695183700, 1986661051, 2177026350, 2456956037,
   2730485921, 2820302411, 3259730800, 3345764771, 3516065817,
   3600352804, 4094571909, 275423344, 430227734, 506948616,
   659060556, 883997877, 958139571, 1322822218, 1537002063,
   1747873779, 1955562222, 2024104815, 2227730452, 2361852424,
   2428436474, 2756734187, 3204031479, 3329325298]

/-- The eight 32-bit words of a SHA-256 hash state. -/
structure Hash8 where
  a : Nat
  b : Nat
  c : Nat
  d : Nat
  e : Nat
  f : Nat
  g : Nat
  h : Nat
deriving DecidableEq, Repr

/-- The SHA-256 initial hash value `H(0)` (in decimal). -/
def initHash : Hash8 :=
  ⟨1779033703, 3144134277, 1013904242, 2773480762,
   1359893119, 2600822924, 528734635, 1541459225⟩

/-- Big-endian assembly of 4 bytes into a 32-bit word (message parsing). -/
def toWords : List Nat → List Nat
  | b0 :: b1 :: b2 :: b3 :: rest =>
      (b0 * 2 ^ 24 + b1 * 2 ^ 16 + b2 * 2 ^ 8 + b3) :: toWords rest
  | _ => []

/-- Expand the 16 words of a block to the 64-word message schedule. -/
def msgSchedule (w16 : List Nat) : List Nat :=
  (List.range 48).foldl
    (fun acc _ =>
      let n := acc.length
      acc ++ [w32 (smallSigma1 (acc.getD (n - 2) 0) + acc.getD (n - 7) 0 +
                   smallSigma0 (acc.getD (n - 15) 0) + acc.getD (n - 16) 0)])
    w16

/-- One round of the SHA-256 compression function. -/
def shaRound (s : Hash8) (ki wi : Nat) : Hash8 :=
  let t1 := w32 (s.h + bigSigma1 s.e + ch s.e s.f s.g + ki + wi)
  let t2 := w32 (bigSigma0 s.a + maj s.a s.b s.c)
  ⟨w32 (t1 + t2), s.a, s.b, s.c, w32 (s.d + t1), s.e, s.f, s.g⟩

/-- SHA-256 compression: absorb one 64-byte block into the hash state. -/
def compress (st : Hash8) (block : List Nat) : Hash8 :=
  let w := msgSchedule (toWords block)
  let t := (List.range 64).foldl
    (fun s i => shaRound s (roundK.getD i 0) (w.getD i 0)) st
  ⟨w32 (st.a + t.a), w32 (st.b + t.b), w32 (st.c + t.c), w32 (st.d + t.d),
   w32 (st.e + t.e), w32 (st.f + t.f), w32 (st.g + t.g), w32 (st.h + t.h)⟩

/-- The 32 digest bytes of a final hash state: each word big-endian. -/
def digestOut (st : Hash8) : List Nat :=
  [st.a / 2 ^ 24, st.a / 2 ^ 16, st.a / 2 ^ 8, st.a,
   st.b / 2 ^ 24, st.b / 2 ^ 16, st.b / 2 ^ 8, st.b,
   st.c / 2 ^ 24, st.c / 2 ^ 16, st.c / 2 ^ 8, st.c,
   st.d / 2 ^ 24, st.d / 2 ^ 16, st.d / 2 ^ 8, st.d,
   st.e / 2 ^ 24, st.e / 2 ^ 16, st.e / 2 ^ 8, st.e,
   st.f / 2 ^ 24, st.f / 2 ^ 16, st.f / 2 ^ 8, st.f,
   st.g / 2 ^ 24, st.g / 2 ^ 16, st.g / 2 ^ 8, st.g,
   st.h / 2 ^ 24, st.h / 2 ^ 16, st.h / 2 ^ 8, st.h].map (fun x => x % 256)

/-- Eight big-endian bytes of the 64-bit message bit length. -/
def lenBytes (bits : Nat) : List Nat :=
  [bits / 2 ^ 56, bits / 2 ^ 48, bits / 2 ^ 40, bits / 2 ^ 32,
   bits / 2 ^ 24, bits / 2 ^ 16, bits / 2 ^ 8, bits].map (fun x => x % 256)

/-- The SHA-256 padding appended to a message of `len` bytes: `0x80`, zero
bytes up to 56 mod 64, then the bit length.  Depends only on `len`. -/
def padTail (len : Nat) : List Nat :=
  0x80 :: List.replicate ((119 - len % 64) % 64) 0 ++ lenBytes (8 * len)

/-- Fuel-driven worker for `chunkBlocks` (structural recursion on the fuel so
that the kernel can evaluate it; `fuel ≥ l.length` makes it total). -/
def chunkBlocksAux : Nat → List Nat → List (List Nat)
  | 0, _ => []
  | _, [] => []
  | fuel + 1, x :: xs => (x :: xs).take 64 :: chunkBlocksAux fuel ((x :: xs).drop 64)

/-- Split a byte list into consecutive 64-byte blocks (the last block keeps
whatever remains when the length is not a multiple of 64; padded messages
always split exactly). -/
def chunkBlocks (l : List Nat) : List (List Nat) := chunkBlocksAux l.length l

/-- The SHA-256 function on byte lists: pad, then fold the compression
function over the 64-byte blocks, then serialize the state big-endian. -/
def sha256Bytes (msg : List Nat) : List Nat :=
  digestOut (List.foldl compress initHash (chunkBlocks (msg ++ padTail msg.length)))

/-- Lowercase hexadecimal digit for `n < 16`. -/
def hexDigit (n : Nat) : Char :=
  if n < 10 then Char.ofNat (48 + n) else Char.ofNat (87 + n)

/-- `hex::encode`: two lowercase hex characters per byte. -/
def hexEncode (bytes : List Nat) : String :=
  String.mk (bytes.flatMap (fun b => [hexDigit (b / 16), hexDigit (b % 16)]))

/-- The kind carried by a Rust `std::io::Error`. -/
inductive ErrorKind where
  | notFound
  | permissionDenied
  | interrupted
  | otherErr
deriving DecidableEq, Repr

/-- A Rust `std::io::Error`: its kind. -/
structure IOErr where
  kind : ErrorKind
deriving DecidableEq, Repr

/-- Decidable equality of `Except` results, to let concrete runs of the
fallible operations be settled by `decide`. -/
instance {ε α : Type} [DecidableEq ε] [DecidableEq α] : DecidableEq (Except ε α) :=
  fun a b =>
    match a, b with
    | .ok x, .ok y =>
        if h : x = y then .isTrue (by rw [h])
        else .isFalse (fun hc => by cases hc; exact h rfl)
    | .error x, .error y =>
        if h : x = y then .isTrue (by rw [h])
        else .isFalse (fun hc => by cases hc; exact h rfl)
    | .ok _, .error _ => .isFalse (fun hc => by cases hc)
    | .error _, .ok _ => .isFalse (fun hc => by cases hc)

/-- The outcome of one `read_inner` call of a `CalculatorInput` /
`AsyncCalculatorInput` source: either the bytes placed in the buffer by that
read (`[]` signalling end of input), or an I/O error.  A whole input source is
modelled as the list of outcomes its successive reads produce; an exhausted
list also reads as end of input (a real reader keeps returning 0 there). -/
inductive ReadResult where
  | ok (bytes : List Nat)
  | err (e : IOErr)
deriving DecidableEq, Repr

/-- Observable calls made to a hash engine: an `update_inner` with the exact
bytes passed, or the final `finish_inner`. -/
inductive HashEvent where
  | upd (bytes : List Nat)
  | fin
deriving DecidableEq, Repr

/-- The crate's `CalculatorSelector` trait: an engine accepts byte chunks and,
once exhausted, yields the digest bytes (`FinishType` viewed through
`AsRef<[u8]>`). -/
class CalculatorSelector (S : Type) where
  update_inner : S → List Nat → S
  finish_inner : S → List Nat

/-- The `sha2::Sha256` engine, modelled by its functional contract: the state
is the sequence of bytes fed so far. -/
structure Sha256 where
  fed : List Nat
deriving DecidableEq, Repr

/-- `sha2::Sha256::new()`: no bytes fed yet. -/
def Sha256.new : Sha256 := ⟨[]⟩

/-- `sha2` `Digest::update`: append the chunk to the bytes hashed so far. -/
def Sha256.update (s : Sha256) (data : List Nat) : Sha256 := ⟨s.fed ++ data⟩

/-- `sha2` `Digest::finalize`: SHA-256 of everything fed. -/
def Sha256.finalize (s : Sha256) : List Nat := sha256Bytes s.fed

/-- `sha2` one-shot `Sha256::digest`. -/
def Sha256.digest (data : List Nat) : List Nat := sha256Bytes data

/-- `impl CalculatorSelector for Sha256` (src/lib.rs:271-281). -/
instance : CalculatorSelector Sha256 where
  update_inner := Sha256.update
  finish_inner := Sha256.finalize

/-- `fn __digest__` (src/lib.rs:233-235): `hex::encode(Sha256::digest(data))`. -/
def __digest__ (data : List Nat) : String := hexEncode (Sha256.digest data)

/-- Fuel-driven worker for `processBlocks` (structural recursion on the fuel
so that the kernel can evaluate it; `fuel ≥ data.length` makes it total). -/
def processBlocksAux : Nat → Hash8 → List Nat → Hash8 × List Nat
  | 0, hs, data => (hs, data)
  | fuel + 1, hs, data =>
      if 64 ≤ data.length then
        processBlocksAux fuel (compress hs (data.take 64)) (data.drop 64)
      else (hs, data)

/-- Absorb every complete 64-byte block at the front of `data` into the hash
state, returning the new state and the fewer-than-64 leftover bytes (the block
loop of openssl's `SHA256_Update`). -/
def processBlocks (hs : Hash8) (data : List Nat) : Hash8 × List Nat :=
  processBlocksAux data.length hs data

/-- The `openssl::sha::Sha256` engine, modelled on its `SHA256_CTX`: the
running hash over the complete blocks consumed so far, the pending buffer of
fewer than 64 bytes, and the total number of bytes fed. -/
structure OpenSslSha256 where
  hs : Hash8
  buffer : List Nat
  len : Nat
deriving DecidableEq, Repr

/-- `openssl::sha::Sha256::new()`. -/
def OpenSslSha256.new : OpenSslSha256 := ⟨initHash, [], 0⟩

/-- openssl `Sha256::update`: append to the pending buffer and eagerly absorb
every complete 64-byte block. -/
def OpenSslSha256.update (c : OpenSslSha256) (data : List Nat) : OpenSslSha256 :=
  let r := processBlocks c.hs (c.buffer ++ data)
  ⟨r.1, r.2, c.len + data.length⟩

/-- openssl `Sha256::finish`: pad the pending bytes with the total length and
absorb the final block(s). -/
def OpenSslSha256.finish (c : OpenSslSha256) : List Nat :=
  digestOut (List.foldl compress c.hs (chunkBlocks (c.buffer ++ padTail c.len)))

/-- `impl CalculatorSelector for OpenSslSha256` (src/openssl_sha256.rs:5-15). -/
instance : CalculatorSelector OpenSslSha256 where
  update_inner := OpenSslSha256.update
  finish_inner := OpenSslSha256.finish

/-- `fn calc` (src/lib.rs:283-298) instrumented with the trace of engine
calls: read; a failing read returns the error as is; a 0-length read breaks
the loop, finishes the engine and hex-encodes; otherwise exactly the `len`
bytes just read are fed to `update_inner` and the loop continues. -/
def calcT {S : Type} [CalculatorSelector S] :
    List ReadResult → S → Except IOErr String × List HashEvent
  | [], s => (.ok (hexEncode (CalculatorSelector.finish_inner s)), [.fin])
  | .ok [] :: _, s => (.ok (hexEncode (CalculatorSelector.finish_inner s)), [.fin])
  | .ok (b :: bs) :: rest, s =>
      let r := calcT rest (CalculatorSelector.update_inner s (b :: bs))
      (r.1, .upd (b :: bs) :: r.2)
  | .err e :: _, _ => (.error e, [])

/-- `fn calc` (src/lib.rs:283-298): the returned value of the instrumented
loop. -/
def calcImpl {S : Type} [CalculatorSelector S] (input : List ReadResult)
    (selector : S) : Except IOErr String :=
  (calcT input selector).1

/-- `fn async_calc` (src/async_digest.rs:48-64) instrumented with the trace
of engine calls.  `buf` is the `BytesMut` contents carried across loop
iterations; the loop clears it (length reset to 0) before every read, so the
bytes present after `read_inner` appends are exactly that read's bytes, and
`&buf[0..len]` is what gets fed to `update_inner`. -/
def async_calcT {S : Type} [CalculatorSelector S] :
    List ReadResult → List Nat → S → Except IOErr String × List HashEvent
  | [], _, s => (.ok (hexEncode (CalculatorSelector.finish_inner s)), [.fin])
  | .err e :: _, _, _ => (.error e, [])
  | .ok bytes :: rest, _, s =>
      -- buf.clear(): the carried buffer is discarded, read_buf appends to []
      let buf1 := ([] : List Nat) ++ bytes
      if bytes.length = 0 then
        (.ok (hexEncode (CalculatorSelector.finish_inner s)), [.fin])
      else
        let r := async_calcT rest buf1
          (CalculatorSelector.update_inner s (buf1.take bytes.length))
        (r.1, .upd (buf1.take bytes.length) :: r.2)

/-- `fn async_calc` (src/async_digest.rs:48-64): the returned value; the
`BytesMut` starts out empty. -/
def async_calc {S : Type} [CalculatorSelector S] (input : List ReadResult)
    (selector : S) : Except IOErr String :=
  (async_calcT input [] selector).1

/-- `fn async_calc`, the revision at src/lib.rs:300-315, instrumented with
the trace of engine calls.  This revision never clears the `BytesMut`, so
`read_inner` appends after the bytes of every earlier read and
`&buf[0..len]` takes `len` bytes from the front of the accumulated buffer. -/
def async_calc_v0T {S : Type} [CalculatorSelector S] :
    List ReadResult → List Nat → S → Except IOErr String × List HashEvent
  | [], _, s => (.ok (hexEncode (CalculatorSelector.finish_inner s)), [.fin])
  | .err e :: _, _, _ => (.error e, [])
  | .ok bytes :: rest, buf, s =>
      let buf1 := buf ++ bytes
      if bytes.length = 0 then
        (.ok (hexEncode (CalculatorSelector.finish_inner s)), [.fin])
      else
        let r := async_calc_v0T rest buf1
          (CalculatorSelector.update_inner s (buf1.take bytes.length))
        (r.1, .upd (buf1.take bytes.length) :: r.2)

/-- `fn async_calc` (src/lib.rs:300-315): the returned value; the `BytesMut`
starts out empty. -/
def async_calc_v0 {S : Type} [CalculatorSelector S] (input : List ReadResult)
    (selector : S) : Except IOErr String :=
  (async_calc_v0T input [] selector).1

/-- Models the external filesystem collaborator: a filesystem is a partial map
from paths to file contents, and `fs::File::open` / `tokio::fs::File::open`
on a path not mapped to a file fails with a not-found I/O error. -/
def fileOpen (fsys : String → Option (List Nat)) (path : String) :
    Except IOErr (List Nat) :=
  match fsys path with
  | none => .error ⟨ErrorKind.notFound⟩
  | some contents => .ok contents

/-- Fuel-driven worker for `readChunks`. -/
def readChunksAux : Nat → List Nat → List ReadResult
  | 0, _ => []
  | _, [] => []
  | fuel + 1, x :: xs =>
      .ok ((x :: xs).take 1024) :: readChunksAux fuel ((x :: xs).drop 1024)

/-- The reads a buffered reader over the given file contents delivers to the
streaming loop: successive chunks of at most 1024 bytes (the loop's buffer
size), then end of input. -/
def readChunks (contents : List Nat) : List ReadResult :=
  readChunksAux contents.length contents

/-- `TrySha256Digest::digest` for `P: AsRef<Path>` (src/lib.rs:210-215), the
body of `try_digest`: open the file (propagating the I/O error), wrap it in a
reader and run `calc` with a fresh `Sha256`. -/
def try_digest (fsys : String → Option (List Nat)) (path : String) :
    Except IOErr String :=
  (fileOpen fsys path).bind fun contents => calcImpl (readChunks contents) Sha256.new

/-- `TrySha256Digest::async_digest` (src/lib.rs:217-222), the body of
`try_async_digest`: open the file asynchronously (propagating the I/O error)
and run this revision's `async_calc` with a fresh `Sha256`. -/
def try_async_digest (fsys : String → Option (List Nat)) (path : String) :
    Except IOErr String :=
  (fileOpen fsys path).bind fun contents => async_calc_v0 (readChunks contents) Sha256.new

/-- `TrySha256Digest::async_openssl_digest` (src/lib.rs:224-230), the body of
`try_async_openssl_digest`: as `async_digest` but with a fresh
`OpenSslSha256`. -/
def try_async_openssl_digest (fsys : String → Option (List Nat)) (path : String) :
    Except IOErr String :=
  (fileOpen fsys path).bind fun contents => async_calc_v0 (readChunks contents) OpenSslSha256.new

/-- Models the external UTF-8 encoder (Rust `char::encode_utf8`): the 1-4
byte big-endian UTF-8 encoding of a scalar value. -/
def charUtf8 (c : Char) : List Nat :=
  let n := c.toNat
  if n < 0x80 then [n]
  else if n < 0x800 then [0xC0 + n / 64, 0x80 + n % 64]
  else if n < 0x10000 then [0xE0 + n / 4096, 0x80 + n / 64 % 64, 0x80 + n % 64]
  else [0xF0 + n / 262144, 0x80 + n / 4096 % 64, 0x80 + n / 64 % 64, 0x80 + n % 64]

/-- The UTF-8 bytes of a string (Rust `str::as_bytes`). -/
def strBytes (s : String) : List Nat := (s.toList.map charUtf8).flatten

/-- `impl Sha256Digest for &[u8; N]` (src/lib.rs:161-165). -/
def digestOfByteArray (data : List Nat) : String := __digest__ data

/-- `impl Sha256Digest for &[u8]` (src/lib.rs:167-171). -/
def digestOfSlice (data : List Nat) : String := __digest__ data

/-- `impl Sha256Digest for &Vec<u8>` (src/lib.rs:173-177). -/
def digestOfRefVec (data : List Nat) : String := __digest__ data

/-- `impl Sha256Digest for Vec<u8>` (src/lib.rs:179-183). -/
def digestOfVec (data : List Nat) : String := __digest__ data

/-- `impl Sha256Digest for String` (src/lib.rs:185-189): digest of
`self.as_bytes()`. -/
def digestOfString (s : String) : String := __digest__ (strBytes s)

/-- `impl Sha256Digest for &str` (src/lib.rs:191-195). -/
def digestOfStr (s : String) : String := __digest__ (strBytes s)

/-- `impl Sha256Digest for &String` (src/lib.rs:197-201). -/
def digestOfRefString (s : String) : String := __digest__ (strBytes s)

/-- Modelled from the spec: an `impl Sha256Digest for char` is not among the
files under `src/`; §4.6 of the spec ("a single character encoded as UTF-8",
never failing) and the known-answer test for `digest('π')` describe it as
digesting the character's UTF-8 encoding. -/
def digestOfChar (c : Char) : String := __digest__ (charUtf8 c)

/-- Whether a fallible digest computation returned a digest (exited the
streaming loop normally) rather than an error. -/
def isOkResult {ε α : Type} : Except ε α → Bool
  | .ok _ => true
  | .error _ => false

/-- An input source on which the streaming loop exits normally: scanning the
reads in order, every read before the terminating event returns a positive
length, and the terminating event is a read returning 0 bytes (an explicit
0-length read, or the source being exhausted). -/
def normalExit : List ReadResult → Bool
  | [] => true
  | .ok [] :: _ => true
  | .ok (_ :: _) :: rest => normalExit rest
  | .err _ :: _ => false

/-- The representation invariant tying an `OpenSslSha256` context to the
whole byte sequence `msg` fed to it so far: the context's hash is the
compression fold over the complete 64-byte blocks of `msg`, its buffer is the
leftover tail of fewer than 64 bytes, and its length count is `msg.length`. -/
def OpenSslInv (c : OpenSslSha256) (msg : List Nat) : Prop :=
  ∃ bs : List (List Nat),
    (∀ b ∈ bs, b.length = 64) ∧ msg = bs.flatten ++ c.buffer ∧
    c.buffer.length < 64 ∧ c.hs = List.foldl compress initHash bs ∧
    c.len = msg.length

/-! ## Helper lemmas -/

theorem chunkBlocksAux_congr : ∀ f g (l : List Nat), l.length ≤ f → l.length ≤ g →
    chunkBlocksAux f l = chunkBlocksAux g l := by
  intro f
  induction f with
  | zero =>
    intro g l hf _
    have hl : l = [] := List.length_eq_zero.mp (Nat.le_zero.mp hf)
    subst hl
    cases g <;> rfl
  | succ f ih =>
    intro g l hf hg
    cases l with
    | nil => cases g <;> rfl
    | cons x xs =>
      cases g with
      | zero => simp at hg
      | succ g =>
        simp only [chunkBlocksAux]
        congr 1
        simp only [List.length_cons] at hf hg
        apply ih <;> simp only [List.length_drop, List.length_cons] <;> omega

theorem chunkBlocks_cons (x : Nat) (xs : List Nat) :
    chunkBlocks (x :: xs) = (x :: xs).take 64 :: chunkBlocks ((x :: xs).drop 64) := by
  show chunkBlocksAux (xs.length + 1) (x :: xs) = _
  simp only [chunkBlocksAux]
  congr 1
  apply chunkBlocksAux_congr
  · simp only [List.length_drop, List.length_cons]
    omega
  · exact Nat.le_refl _

theorem chunkBlocks_block {b : List Nat} (t : List Nat) (hb : b.length = 64) :
    chunkBlocks (b ++ t) = b :: chunkBlocks t := by
  cases b with
  | nil => simp at hb
  | cons b0 b' =>
    rw [List.cons_append, chunkBlocks_cons, ← List.cons_append, ← hb,
        List.take_left, List.drop_left]

theorem chunkBlocks_flatten_append (bs : List (List Nat)) (t : List Nat)
    (h : ∀ b ∈ bs, b.length = 64) :
    chunkBlocks (bs.flatten ++ t) = bs ++ chunkBlocks t := by
  induction bs with
  | nil => simp
  | cons b bs ih =>
    rw [List.flatten_cons, List.append_assoc, chunkBlocks_block _ (h b (by simp)),
        ih (fun x hx => h x (by simp [hx])), List.cons_append]

theorem processBlocksAux_spec : ∀ fuel (hs : Hash8) (data : List Nat),
    data.length ≤ fuel →
    ∃ bs rem, processBlocksAux fuel hs data = (List.foldl compress hs bs, rem) ∧
      data = bs.flatten ++ rem ∧ (∀ b ∈ bs, b.length = 64) ∧ rem.length < 64 := by
  intro fuel
  induction fuel with
  | zero =>
    intro hs data hf
    have hd : data = [] := List.length_eq_zero.mp (Nat.le_zero.mp hf)
    subst hd
    exact ⟨[], [], rfl, rfl, by simp, by simp⟩
  | succ fuel ih =>
    intro hs data hf
    by_cases h64 : 64 ≤ data.length
    · obtain ⟨bs, rem, h1, h2, h3, h4⟩ := ih (compress hs (data.take 64)) (data.drop 64)
        (by simp only [List.length_drop]; omega)
      refine ⟨data.take 64 :: bs, rem, ?_, ?_, ?_, h4⟩
      · simp only [processBlocksAux, if_pos h64]
        rw [h1]
        rfl
      · conv_lhs => rw [← List.take_append_drop 64 data]
        rw [h2, List.flatten_cons, List.append_assoc]
      · intro b hb
        rcases List.mem_cons.mp hb with rfl | hmem
        · rw [List.length_take]
          omega
        · exact h3 b hmem
    · exact ⟨[], data, by simp only [processBlocksAux, if_neg h64]; rfl, by simp, by simp,
        by omega⟩

theorem processBlocks_spec (hs : Hash8) (data : List Nat) :
    ∃ bs rem, processBlocks hs data = (List.foldl compress hs bs, rem) ∧
      data = bs.flatten ++ rem ∧ (∀ b ∈ bs, b.length = 64) ∧ rem.length < 64 :=
  processBlocksAux_spec data.length hs data (Nat.le_refl _)

theorem openSslInv_new : OpenSslInv OpenSslSha256.new [] :=
  ⟨[], by simp, rfl, by simp [OpenSslSha256.new], rfl, rfl⟩

theorem openSslInv_update {c : OpenSslSha256} {msg : List Nat} (data : List Nat)
    (hinv : OpenSslInv c msg) : OpenSslInv (c.update data) (msg ++ data) := by
  obtain ⟨bs, hbs, hmsg, hlt, hhs, hlen⟩ := hinv
  obtain ⟨bs2, rem, h1, h2, h3, h4⟩ := processBlocks_spec c.hs (c.buffer ++ data)
  refine ⟨bs ++ bs2, ?_, ?_, ?_, ?_, ?_⟩
  · intro b hb
    rcases List.mem_append.mp hb with hmem | hmem
    · exact hbs b hmem
    · exact h3 b hmem
  · show msg ++ data = (bs ++ bs2).flatten ++ (c.update data).buffer
    have hbuf : (c.update data).buffer = rem := by
      simp only [OpenSslSha256.update, h1]
    rw [hbuf, hmsg, List.flatten_append, List.append_assoc, List.append_assoc, ← h2]
  · show (c.update data).buffer.length < 64
    have hbuf : (c.update data).buffer = rem := by
      simp only [OpenSslSha256.update, h1]
    rw [hbuf]; exact h4
  · show (c.update data).hs = _
    have hh : (c.update data).hs = List.foldl compress c.hs bs2 := by
      simp only [OpenSslSha256.update, h1]
    rw [hh, hhs, ← List.foldl_append]
  · show (c.update data).len = (msg ++ data).length
    have hl : (c.update data).len = c.len + data.length := rfl
    rw [hl, hlen, List.length_append]

theorem openSslInv_finish {c : OpenSslSha256} {msg : List Nat}
    (hinv : OpenSslInv c msg) : OpenSslSha256.finish c = sha256Bytes msg := by
  obtain ⟨bs, hbs, hmsg, _, hhs, hlen⟩ := hinv
  show digestOut (List.foldl compress c.hs (chunkBlocks (c.buffer ++ padTail c.len))) = _
  rw [hlen, hhs]
  show _ = digestOut (List.foldl compress initHash (chunkBlocks (msg ++ padTail msg.length)))
  conv_rhs => rw [hmsg]
  rw [show bs.flatten ++ c.buffer ++ padTail (bs.flatten ++ c.buffer).length
        = bs.flatten ++ (c.buffer ++ padTail (bs.flatten ++ c.buffer).length) from
      List.append_assoc _ _ _,
    chunkBlocks_flatten_append bs _ hbs, List.foldl_append, ← hmsg]

theorem openSslInv_foldl {c : OpenSslSha256} {msg : List Nat}
    (chunks : List (List Nat)) (hinv : OpenSslInv c msg) :
    OpenSslInv (List.foldl OpenSslSha256.update c chunks) (msg ++ chunks.flatten) := by
  induction chunks generalizing c msg with
  | nil => simpa using hinv
  | cons d ds ih =>
    have := ih (openSslInv_update d hinv)
    simpa [List.append_assoc] using this

theorem openssl_fold_digest (chunks : List (List Nat)) :
    OpenSslSha256.finish (List.foldl OpenSslSha256.update OpenSslSha256.new chunks)
      = sha256Bytes chunks.flatten := by
  have h := openSslInv_foldl chunks openSslInv_new
  simpa using openSslInv_finish (by simpa using h)

theorem sha256_fold_fed (chunks : List (List Nat)) (s : Sha256) :
    (List.foldl Sha256.update s chunks).fed = s.fed ++ chunks.flatten := by
  induction chunks generalizing s with
  | nil => simp
  | cons c cs ih =>
    rw [List.foldl_cons, ih, List.flatten_cons]
    show s.fed ++ c ++ cs.flatten = _
    rw [List.append_assoc]

theorem sha256_update_inner_eq :
    (CalculatorSelector.update_inner : Sha256 → List Nat → Sha256) = Sha256.update := rfl

theorem sha256_finish_inner_eq :
    (CalculatorSelector.finish_inner : Sha256 → List Nat) = Sha256.finalize := rfl

theorem openssl_update_inner_eq :
    (CalculatorSelector.update_inner : OpenSslSha256 → List Nat → OpenSslSha256)
      = OpenSslSha256.update := rfl

theorem openssl_finish_inner_eq :
    (CalculatorSelector.finish_inner : OpenSslSha256 → List Nat)
      = OpenSslSha256.finish := rfl

theorem calcT_map_ok {S : Type} [CalculatorSelector S] :
    ∀ (chunks : List (List Nat)) (s : S), (∀ c ∈ chunks, c ≠ []) →
      calcT (chunks.map ReadResult.ok) s
        = (.ok (hexEncode (CalculatorSelector.finish_inner
              (chunks.foldl CalculatorSelector.update_inner s))),
           chunks.map HashEvent.upd ++ [HashEvent.fin]) := by
  intro chunks
  induction chunks with
  | nil => intro s _; rfl
  | cons c cs ih =>
    intro s hne
    have hc : c ≠ [] := hne c (by simp)
    cases c with
    | nil => exact absurd rfl hc
    | cons b bs =>
      show (let r := calcT (cs.map ReadResult.ok)
              (CalculatorSelector.update_inner s (b :: bs));
            (r.1, HashEvent.upd (b :: bs) :: r.2)) = _
      rw [ih (CalculatorSelector.update_inner s (b :: bs))
            (fun x hx => hne x (by simp [hx]))]
      rfl

theorem async_calcT_eq_calcT {S : Type} [CalculatorSelector S] :
    ∀ (sched : List ReadResult) (buf : List Nat) (s : S),
      async_calcT sched buf s = calcT sched s := by
  intro sched
  induction sched with
  | nil => intro buf s; rfl
  | cons r rest ih =>
    intro buf s
    cases r with
    | err e => rfl
    | ok bytes =>
      cases bytes with
      | nil => rfl
      | cons b bs =>
        show (let r := async_calcT rest (([] : List Nat) ++ (b :: bs))
                (CalculatorSelector.update_inner s
                  ((([] : List Nat) ++ (b :: bs)).take (b :: bs).length));
              (r.1, HashEvent.upd ((([] : List Nat) ++ (b :: bs)).take (b :: bs).length) :: r.2)) = _
        rw [ih]
        simp [List.take_length, calcT]

theorem calcT_err {S : Type} [CalculatorSelector S] :
    ∀ (chunks : List (List Nat)) (e : IOErr) (rest : List ReadResult) (s : S),
      (∀ c ∈ chunks, c ≠ []) →
      calcT (chunks.map ReadResult.ok ++ .err e :: rest) s
        = (.error e, chunks.map HashEvent.upd) := by
  intro chunks
  induction chunks with
  | nil => intro e rest s _; rfl
  | cons c cs ih =>
    intro e rest s hne
    have hc : c ≠ [] := hne c (by simp)
    cases c with
    | nil => exact absurd rfl hc
    | cons b bs =>
      show (let r := calcT (cs.map ReadResult.ok ++ .err e :: rest)
              (CalculatorSelector.update_inner s (b :: bs));
            (r.1, HashEvent.upd (b :: bs) :: r.2)) = _
      rw [ih e rest (CalculatorSelector.update_inner s (b :: bs))
            (fun x hx => hne x (by simp [hx]))]
      rfl

theorem string_mk_length (l : List Char) : (String.mk l).length = l.length := rfl

theorem length_hexEncode (l : List Nat) : (hexEncode l).length = 2 * l.length := by
  induction l with
  | nil => rfl
  | cons x xs ih =>
    have ihl : (xs.flatMap (fun b => [hexDigit (b / 16), hexDigit (b % 16)])).length
        = 2 * xs.length := ih
    show ((x :: xs).flatMap (fun b => [hexDigit (b / 16), hexDigit (b % 16)])).length = _
    rw [List.flatMap_cons, List.length_append, ihl]
    simp only [List.length_cons, List.length_nil]
    omega

theorem length_digestOut (st : Hash8) : (digestOut st).length = 32 := by
  simp [digestOut]

theorem length_sha256Bytes (msg : List Nat) : (sha256Bytes msg).length = 32 :=
  length_digestOut _

theorem digestOut_lt (st : Hash8) : ∀ b ∈ digestOut st, b < 256 := by
  intro b hb
  obtain ⟨a, _, rfl⟩ := List.mem_map.mp hb
  exact Nat.mod_lt _ (by norm_num)

theorem hexDigit_mem_charset : ∀ n, n < 16 → hexDigit n ∈ "0123456789abcdef".toList := by
  decide

theorem hexEncode_mem_charset (l : List Nat) (hl : ∀ b ∈ l, b < 256) :
    ∀ a ∈ (hexEncode l).toList, a ∈ "0123456789abcdef".toList := by
  intro a ha
  have htl : (hexEncode l).toList
      = l.flatMap (fun b => [hexDigit (b / 16), hexDigit (b % 16)]) := rfl
  rw [htl, List.mem_flatMap] at ha
  obtain ⟨b, hb, hab⟩ := ha
  have hlt := hl b hb
  simp only [List.mem_cons, List.not_mem_nil, or_false] at hab
  rcases hab with rfl | rfl
  · exact hexDigit_mem_charset _ (by omega)
  · exact hexDigit_mem_charset _ (by omega)

theorem calcT_ok_shape : ∀ (sched : List ReadResult) (s : Sha256) (r : String),
    (calcT sched s).1 = .ok r → ∃ m, r = hexEncode (sha256Bytes m) := by
  intro sched
  induction sched with
  | nil =>
    intro s r h
    exact ⟨s.fed, by cases h; rfl⟩
  | cons rr rest ih =>
    intro s r h
    cases rr with
    | err e => cases h
    | ok bytes =>
      cases bytes with
      | nil => exact ⟨s.fed, by cases h; rfl⟩
      | cons b bs => exact ih _ r h

theorem calc_isOk_normalExit {S : Type} [CalculatorSelector S] :
    ∀ (sched : List ReadResult) (s : S),
      isOkResult (calcImpl sched s) = normalExit sched := by
  intro sched
  induction sched with
  | nil => intro s; rfl
  | cons r rest ih =>
    intro s
    cases r with
    | err e => rfl
    | ok bytes =>
      cases bytes with
      | nil => rfl
      | cons b bs => exact ih (CalculatorSelector.update_inner s (b :: bs))

/-! ## The claims -/

/-- C1: for every byte sequence and every way of splitting it into a sequence
of chunks, feeding the chunks in order to the streaming digest algorithm —
`update_inner` on each chunk, then `finish_inner`, then hex-encoding; and,
for the chunkings a reader can deliver (no empty chunk), running `calc`
itself on that read schedule — yields the same 64-character hex string as
`__digest__` over the whole sequence. -/
theorem chunked_digest_matches_whole (chunks : List (List Nat)) :
    hexEncode (CalculatorSelector.finish_inner
        (chunks.foldl CalculatorSelector.update_inner Sha256.new))
      = __digest__ chunks.flatten
    ∧ ((∀ c ∈ chunks, c ≠ []) →
        calcImpl (chunks.map ReadResult.ok) Sha256.new
          = .ok (__digest__ chunks.flatten)) := by
  have hfold : hexEncode (CalculatorSelector.finish_inner
      (chunks.foldl CalculatorSelector.update_inner Sha256.new))
      = __digest__ chunks.flatten := by
    rw [sha256_finish_inner_eq, sha256_update_inner_eq]
    show hexEncode (sha256Bytes (List.foldl Sha256.update Sha256.new chunks).fed) = _
    rw [sha256_fold_fed]
    show hexEncode (sha256Bytes ([] ++ chunks.flatten)) = _
    rw [List.nil_append]
    rfl
  refine ⟨hfold, fun h => ?_⟩
  show (calcT (chunks.map ReadResult.ok) Sha256.new).1 = _
  rw [calcT_map_ok chunks Sha256.new h]
  show Except.ok _ = Except.ok _
  rw [hfold]

/-- Witness for C1 at the chunking `[[104, 101], [108, 108, 111]]` of
`"hello"`. -/
theorem chunked_digest_matches_whole_witness :
    (∀ c ∈ [[104, 101], [108, 108, 111]], c ≠ ([] : List Nat)) ∧
    calcImpl ([[104, 101], [108, 108, 111]].map ReadResult.ok) Sha256.new
      = .ok (__digest__ [104, 101, 108, 108, 111]) :=
  ⟨by decide, (chunked_digest_matches_whole [[104, 101], [108, 108, 111]]).2 (by decide)⟩

/-- C2: the suspendable streaming algorithm of src/async_digest.rs:48-64
returns the same digest as the blocking `calc` for every schedule of reads
(any boundaries, any suspension points, errors included); but the revision of
`async_calc` at src/lib.rs:300-315 does not: fed the byte sequence
`[0x00, 0x01]` as two one-byte reads it hashes the first byte twice and
returns the digest of `[0x00, 0x00]` instead. -/
theorem async_blocking_parity_and_v0_bug :
    (∀ (S : Type) [CalculatorSelector S] (sched : List ReadResult) (s : S),
        async_calc sched s = calcImpl sched s) ∧
    async_calc_v0 [ReadResult.ok [0], ReadResult.ok [1]] Sha256.new
      ≠ calcImpl [ReadResult.ok [0], ReadResult.ok [1]] Sha256.new := by
  constructor
  · intro S _ sched s
    show (async_calcT sched [] s).1 = (calcT sched s).1
    rw [async_calcT_eq_calcT]
  · decide

/-- C3: in the suspendable algorithm of src/async_digest.rs:48-64 the carried
buffer is cleared before every read, so the run is independent of anything
left in the buffer and each `update_inner` receives exactly the bytes of that
iteration's read (shown on a two-read schedule with stale bytes pre-loaded);
in the revision at src/lib.rs:300-315 the buffer is never cleared and the
second `update_inner` receives the first read's byte again instead of the
second read's byte. -/
theorem exact_read_bytes_trace :
    (∀ (S : Type) [CalculatorSelector S] (sched : List ReadResult)
        (buf buf' : List Nat) (s : S),
        async_calcT sched buf s = async_calcT sched buf' s) ∧
    (async_calcT [ReadResult.ok [0], ReadResult.ok [1]] [9, 9, 9] Sha256.new).2
      = [HashEvent.upd [0], HashEvent.upd [1], HashEvent.fin] ∧
    (async_calc_v0T [ReadResult.ok [0], ReadResult.ok [1]] [] Sha256.new).2
      = [HashEvent.upd [0], HashEvent.upd [0], HashEvent.fin] := by
  refine ⟨fun S _ sched buf buf' s => ?_, by decide, by decide⟩
  rw [async_calcT_eq_calcT, async_calcT_eq_calcT]

/-- C4: the default engine (`sha2::Sha256` through its `CalculatorSelector`
impl) and the alternate engine (`openssl::sha::Sha256` through its impl)
produce the same digest for every byte sequence under every chunking —
both as the bare update/finish fold and through `calc` on any read schedule
a reader can deliver. -/
theorem engine_equivalence (chunks : List (List Nat)) :
    CalculatorSelector.finish_inner
        (chunks.foldl CalculatorSelector.update_inner OpenSslSha256.new)
      = CalculatorSelector.finish_inner
        (chunks.foldl CalculatorSelector.update_inner Sha256.new)
    ∧ ((∀ c ∈ chunks, c ≠ []) →
        calcImpl (chunks.map ReadResult.ok) OpenSslSha256.new
          = calcImpl (chunks.map ReadResult.ok) Sha256.new) := by
  have h1 : CalculatorSelector.finish_inner
      (chunks.foldl CalculatorSelector.update_inner OpenSslSha256.new)
      = sha256Bytes chunks.flatten := by
    rw [openssl_finish_inner_eq, openssl_update_inner_eq]
    exact openssl_fold_digest chunks
  have h2 : CalculatorSelector.finish_inner
      (chunks.foldl CalculatorSelector.update_inner Sha256.new)
      = sha256Bytes chunks.flatten := by
    rw [sha256_finish_inner_eq, sha256_update_inner_eq]
    show sha256Bytes (List.foldl Sha256.update Sha256.new chunks).fed = _
    rw [sha256_fold_fed]
    show sha256Bytes ([] ++ chunks.flatten) = _
    rw [List.nil_append]
  refine ⟨h1.trans h2.symm, fun h => ?_⟩
  show (calcT (chunks.map ReadResult.ok) OpenSslSha256.new).1
      = (calcT (chunks.map ReadResult.ok) Sha256.new).1
  rw [calcT_map_ok chunks OpenSslSha256.new h, calcT_map_ok chunks Sha256.new h]
  show Except.ok _ = Except.ok _
  rw [h1, h2]

/-- Witness for C4 at the chunking `[[0], [1]]`. -/
theorem engine_equivalence_witness :
    (∀ c ∈ [[0], [1]], c ≠ ([] : List Nat)) ∧
    calcImpl ([[0], [1]].map ReadResult.ok) OpenSslSha256.new
      = calcImpl ([[0], [1]].map ReadResult.ok) Sha256.new :=
  ⟨by decide, (engine_equivalence [[0], [1]]).2 (by decide)⟩

/-- C5: in both `calc` and the suspendable `async_calc`, the loop returns a
digest exactly on the schedules where a read yields 0 bytes before any error
(`normalExit`), and every read returning a positive length continues the
loop with the chunk fed to the engine. -/
theorem loop_exit_only_on_zero {S : Type} [CalculatorSelector S]
    (sched rest : List ReadResult) (s : S) (b : Nat) (bs : List Nat) :
    (isOkResult (calcImpl sched s) = normalExit sched ∧
     isOkResult (async_calc sched s) = normalExit sched) ∧
    (calcImpl (ReadResult.ok (b :: bs) :: rest) s
        = calcImpl rest (CalculatorSelector.update_inner s (b :: bs)) ∧
     async_calc (ReadResult.ok (b :: bs) :: rest) s
        = async_calc rest (CalculatorSelector.update_inner s (b :: bs))) := by
  have hpar : ∀ (sc : List ReadResult) (s' : S), async_calc sc s' = calcImpl sc s' := by
    intro sc s'
    show (async_calcT sc [] s').1 = (calcT sc s').1
    rw [async_calcT_eq_calcT]
  refine ⟨⟨calc_isOk_normalExit sched s, ?_⟩, rfl, ?_⟩
  · rw [hpar]
    exact calc_isOk_normalExit sched s
  · rw [hpar, hpar]
    rfl

/-- C6: a failing read makes both `calc` and the suspendable `async_calc`
return that same error unchanged; the trace shows the engine received
updates only for the chunks read before the error — no later read is
consumed, no retry happens, and `finish_inner` is never reached. -/
theorem error_propagates_unchanged {S : Type} [CalculatorSelector S]
    (chunks : List (List Nat)) (e : IOErr) (rest : List ReadResult)
    (buf : List Nat) (s : S) (h : ∀ c ∈ chunks, c ≠ []) :
    calcT (chunks.map ReadResult.ok ++ .err e :: rest) s
      = (.error e, chunks.map HashEvent.upd) ∧
    async_calcT (chunks.map ReadResult.ok ++ .err e :: rest) buf s
      = (.error e, chunks.map HashEvent.upd) := by
  refine ⟨calcT_err chunks e rest s h, ?_⟩
  rw [async_calcT_eq_calcT]
  exact calcT_err chunks e rest s h

/-- Witness for C6: one successful read, then a failing one, with a further
read pending that is never consumed. -/
theorem error_propagates_unchanged_witness :
    (∀ c ∈ [[7]], c ≠ ([] : List Nat)) ∧
    calcT ([[7]].map ReadResult.ok
        ++ .err ⟨ErrorKind.notFound⟩ :: [ReadResult.ok [9]]) Sha256.new
      = (.error ⟨ErrorKind.notFound⟩, [HashEvent.upd [7]]) :=
  ⟨by decide,
   (error_propagates_unchanged [[7]] ⟨ErrorKind.notFound⟩ [ReadResult.ok [9]]
      [] Sha256.new (by decide)).1⟩

/-- C7: on a path naming no existing file, `try_digest`, `try_async_digest`
and `try_async_openssl_digest` all return the not-found I/O error from the
failed open — never a digest string (the result is an `error`, not an `ok`),
and, being total functions, never a crash. -/
theorem missing_file_not_found (fsys : String → Option (List Nat))
    (path : String) (h : fsys path = none) :
    try_digest fsys path = .error ⟨ErrorKind.notFound⟩ ∧
    try_async_digest fsys path = .error ⟨ErrorKind.notFound⟩ ∧
    try_async_openssl_digest fsys path = .error ⟨ErrorKind.notFound⟩ := by
  unfold try_digest try_async_digest try_async_openssl_digest fileOpen
  rw [h]
  exact ⟨rfl, rfl, rfl⟩

/-- Witness for C7 on the empty filesystem. -/
theorem missing_file_not_found_witness :
    (fun _ : String => (none : Option (List Nat))) "a.txt" = none ∧
    try_digest (fun _ => none) "a.txt" = .error ⟨ErrorKind.notFound⟩ :=
  ⟨rfl, (missing_file_not_found (fun _ => none) "a.txt" rfl).1⟩

/-- C8: every digest is a string of exactly 64 lowercase hexadecimal
characters — both from `__digest__` on any byte sequence and from any
successful `calc` run — and `__digest__` of the empty sequence is the
SHA-256 empty-input constant. -/
theorem digest_output_shape :
    (∀ data : List Nat, (__digest__ data).length = 64 ∧
        ∀ a ∈ (__digest__ data).toList, a ∈ "0123456789abcdef".toList) ∧
    __digest__ []
      = "e3b0c44298fc1c149afbf4c8996fb92427ae41e4649b934ca495991b7852b855" ∧
    ∀ (sched : List ReadResult) (r : String) (s : Sha256),
      calcImpl sched s = .ok r → r.length = 64 := by
  refine ⟨fun data => ⟨?_, ?_⟩, by decide, ?_⟩
  · show (hexEncode (sha256Bytes data)).length = 64
    rw [length_hexEncode, length_sha256Bytes]
  · exact hexEncode_mem_charset _ (digestOut_lt _)
  · intro sched r s h
    obtain ⟨m, rfl⟩ := calcT_ok_shape sched s r h
    rw [length_hexEncode, length_sha256Bytes]

/-- Witness for C8: a concrete character of a concrete digest is in the hex
charset, and a concrete successful `calc` run has a 64-character result. -/
theorem digest_output_shape_witness :
    ('e' ∈ (__digest__ []).toList ∧ 'e' ∈ "0123456789abcdef".toList) ∧
    ("e3b0c44298fc1c149afbf4c8996fb92427ae41e4649b934ca495991b7852b855"
      : String).length = 64 :=
  ⟨⟨by decide, (digest_output_shape.1 []).2 'e' (by decide)⟩,
   digest_output_shape.2.2 []
     "e3b0c44298fc1c149afbf4c8996fb92427ae41e4649b934ca495991b7852b855"
     Sha256.new (by decide)⟩

/-- C9: digesting the single character `'π'` via its UTF-8 encoding returns
the stated constant, and the character digest is defined (64 hex characters)
for every character — it never fails. -/
theorem char_digest_pi :
    digestOfChar 'π'
      = "2617fcb92baa83a96341de050f07a3186657090881eae6b833f66a035600f35a" ∧
    ∀ c : Char, (digestOfChar c).length = 64 := by
  refine ⟨by decide, fun c => ?_⟩
  show (hexEncode (sha256Bytes (charUtf8 c))).length = 64
  rw [length_hexEncode, length_sha256Bytes]

/-- C10: all in-memory `Sha256Digest` impls agree on equal byte content:
the three string impls coincide with `__digest__` of the UTF-8 bytes, and
the four byte-sequence impls coincide with `__digest__` of the bytes. -/
theorem inmemory_impls_agree (s : String) (v : List Nat) :
    (digestOfString s = digestOfStr s ∧ digestOfStr s = digestOfRefString s ∧
     digestOfRefString s = __digest__ (strBytes s) ∧
     digestOfString s = digestOfVec (strBytes s)) ∧
    (digestOfVec v = digestOfSlice v ∧ digestOfSlice v = digestOfRefVec v ∧
     digestOfRefVec v = digestOfByteArray v ∧
     digestOfByteArray v = __digest__ v) :=
  ⟨⟨rfl, rfl, rfl, rfl⟩, ⟨rfl, rfl, rfl, rfl⟩⟩
